import Mathlib

/-!
# CTF library (`ctf.c`): a shallow embedding

The library stands up a forking network service: `ctf_listen` binds the
listening socket, `ctf_server` accepts and forks, `ctf_privdrop` drops
privileges, `ctf_randfd` moves a descriptor to a random slot, and
`ctf_readsn` / `ctf_writen` are the blocking I/O helpers.

System calls are modelled by their POSIX contract.  Everything the operating
system decides (return values of system calls, bytes delivered by a read,
values returned by `rand()`) is an explicit environment argument.  C `int`
values are `Int`; a conversion from `unsigned int` to `int` is written
`toInt32`.  Loops whose termination depends on the environment consume a
finite list of environment answers and yield `none` when the list is used up
while the loop condition still holds.
-/

namespace Ctf

/-! ## Machine integers -/

/-- Conversion of an integer value to a 32-bit two's complement `int`. -/
def toInt32 (n : Int) : Int := (n + 2147483648) % 4294967296 - 2147483648

/-- Largest value of `unsigned int`. -/
def UINT_MAX : Nat := 4294967295

/-- Largest value of `int`. -/
def INT_MAX : Nat := 2147483647

/-! ## Descriptor tables -/

/-- The descriptor table of a process: each descriptor number is either
closed (`none`) or refers to an open file description, named by a number. -/
abbrev FdTable := Int → Option Nat

/-- Table `t` with the entry of `fd` replaced by `v`. -/
def FdTable.set (t : FdTable) (fd : Int) (v : Option Nat) : FdTable :=
  fun i => if i = fd then v else t i

/-- `close(fd)`: the entry of `fd` is removed (closing a closed descriptor
fails with `EBADF` and changes nothing, which is the same table). -/
def close (t : FdTable) (fd : Int) : FdTable := t.set fd none

/-- `dup2(old, new)` for a table limited to `max` descriptors: fails with
`-1` when `old` is not open or `new` is outside `0 .. max-1`; when
`new = old` it returns `new` and does nothing; otherwise `new` is made to
refer to the open file of `old` (whatever `new` referred to is dropped). -/
def dup2 (max : Int) (t : FdTable) (old new : Int) : Int × FdTable :=
  match t old with
  | none => (-1, t)
  | some f =>
    if new < 0 ∨ max ≤ new then (-1, t)
    else if new = old then (new, t)
    else (new, t.set new (some f))

/-- The lowest closed descriptor among `fd, fd+1, ..., fd+k-1`. -/
def lowestFreeFrom (t : FdTable) (fd : Int) : Nat → Option Int
  | 0 => none
  | k + 1 => if (t fd).isNone then some fd else lowestFreeFrom t (fd + 1) k

/-! ## `ctf_randfd` -/

/-- What the operating system supplies to one call of `ctf_randfd`. -/
structure RandEnv where
  /-- The value of `getdtablesize()`. -/
  max : Int
  /-- The open file obtained by `open("/dev/urandom", O_RDONLY)`, or `none`
  when the device cannot be opened. -/
  urandom : Option Nat
  /-- The bytes delivered by the successive calls `read(fd, &new, 2)`
  (at most two bytes each; a failed or empty read delivers none). -/
  reads : List (List Nat)
  /-- The values returned by the successive calls of `rand()`. -/
  rands : List Nat

/-- `open("/dev/urandom", O_RDONLY)`: the lowest free descriptor, or `-1`
when the device is unavailable or the table is full. -/
def openUrandom (env : RandEnv) (t : FdTable) : Int × FdTable :=
  match env.urandom with
  | none => (-1, t)
  | some f =>
    match lowestFreeFrom t 0 env.max.toNat with
    | none => (-1, t)
    | some fd => (fd, t.set fd (some f))

/-- Effect of `read(fd, &new, 2)` on the `int` variable `new` (little-endian):
the delivered bytes replace the low-order bytes of `new`. -/
def storeLE (new : Int) : List Nat → Int
  | [] => new
  | [b0] => new - new % 256 + (b0 % 256 : Nat)
  | b0 :: b1 :: _ => new - new % 65536 + (b0 % 256 + 256 * (b1 % 256) : Nat)

/-- Body of the fallback loop: `new = rand() % max`. -/
def randBody (max : Int) (r : Nat) : Int := Int.tmod r max

/-- Body of the `/dev/urandom` loop: `read(fd, &new, 2); new %= max`. -/
def urandomBody (max : Int) (new : Int) (bytes : List Nat) : Int :=
  Int.tmod (storeLE new bytes) max

/-- The loop `while (new < old) { new = rand() % max; }`. -/
def randLoop (max old : Int) (new : Int) : List Nat → Option Int
  | [] => if new < old then none else some new
  | r :: rs => if new < old then randLoop max old (randBody max r) rs else some new

/-- The loop `while (new < old) { read(fd, &new, 2); new %= max; }`. -/
def urandomLoop (max old : Int) (new : Int) : List (List Nat) → Option Int
  | [] => if new < old then none else some new
  | b :: bs =>
    if new < old then urandomLoop max old (urandomBody max new b) bs else some new

/-- Result of `ctf_randfd`: the candidate handed to `dup2`, the value
returned, and the descriptor table afterwards. -/
structure RandfdResult where
  candidate : Int
  ret : Int
  table : FdTable

/-- The function `ctf_randfd(old)`; `none` when the candidate search does not
end on the values supplied by the environment. -/
def ctf_randfd (env : RandEnv) (t : FdTable) (old : Int) : Option RandfdResult :=
  let max := env.max
  let (fd, t1) := openUrandom env t
  let search : Option (Int × FdTable) :=
    if fd < 0 then
      (randLoop max old 0 env.rands).map (fun new => (new, t1))
    else
      (urandomLoop max old 0 env.reads).map (fun new => (new, close t1 fd))
  match search with
  | none => none
  | some (new, t2) =>
    let (r, t3) := dup2 max t2 old new
    if r = -1 then
      some ⟨new, old, t3⟩
    else
      some ⟨new, new, close t3 old⟩

/-- A typical table of the server: standard streams 0, 1, 2, the listening
socket 3 and a freshly accepted client 4, each its own open file. -/
def serverTable : FdTable := fun fd => if 0 ≤ fd ∧ fd ≤ 4 then some fd.toNat else none

/-! ## Outcomes of a call that may terminate the process -/

/-- How a library call ends: it returns a value, the process is terminated
by `errx(eval, msg)`, or the process is killed by a signal. -/
inductive Outcome (α : Type) where
  | returned (v : α)
  | errx (eval : Int) (msg : String)
  | killed (sig : Nat)
  deriving DecidableEq, Repr

/-- The signal raised by an invalid memory access. -/
def SIGSEGV : Nat := 11

/-- The exit status the parent of a process observes after `exit(eval)`:
the low eight bits of `eval`. -/
def exitStatus (eval : Int) : Int := eval % 256

/-- Build-time switches of the library. -/
structure Config where
  /-- The switch `_DEBUG`. -/
  debug : Bool
  /-- The switch `_NORAND`. -/
  norand : Bool
  /-- The switch `_IPV6`. -/
  ipv6 : Bool
  /-- The switch `_CHROOT`. -/
  chroot : Bool
  deriving DecidableEq, Repr

/-! ## `ctf_server` -/

/-- System calls and calls of the handler made by the process that runs
`ctf_server`, with their results. -/
inductive Event where
  | srand
  | accept (sd : Int) (ret : Int)
  | randfd (old : Int) (ret : Int)
  | fork (ret : Int)
  | alarm (secs : Nat)
  | close (fd : Int)
  | handler (fd : Int) (ret : Int)
  | exit (status : Int)
  deriving DecidableEq, Repr

/-- Is the event a call of the handler? -/
def Event.isHandler : Event → Bool
  | .handler _ _ => true
  | _ => false

/-- Is the event a call of `accept`? -/
def Event.isAccept : Event → Bool
  | .accept _ _ => true
  | _ => false

/-- What the operating system supplies to one iteration of the accept loop. -/
structure IterEnv where
  /-- The open file of the connection that `accept` delivers, or `none` when
  `accept` fails. -/
  conn : Option Nat
  /-- The environment of the call of `ctf_randfd`; its `max` is also the
  limit of the descriptor table for `accept`. -/
  rnd : RandEnv
  /-- The value `fork()` returns in the process that is followed: `-1` on
  failure, `0` in the child, the child's pid in the parent. -/
  pid : Int

/-- `accept(sd, NULL, NULL)`: the new connection gets the lowest free
descriptor; `-1` when no connection is delivered or the table is full. -/
def accept (max : Int) (t : FdTable) (conn : Option Nat) : Int × FdTable :=
  match conn with
  | none => (-1, t)
  | some f =>
    match lowestFreeFrom t 0 max.toNat with
    | none => (-1, t)
    | some fd => (fd, t.set fd (some f))

/-- Where the process stands after an iteration of the accept loop. -/
inductive Next where
  | loop
  | exited (status : Int)
  deriving DecidableEq, Repr

/-- Result of running part of `ctf_server` in one process. -/
structure Run where
  trace : List Event
  table : FdTable
  next : Next

/-- One iteration of the `while (true)` loop of `ctf_server`, in the process
that is followed; `none` when the call of `ctf_randfd` does not end. -/
def serverIter (cfg : Config) (sd : Int) (handler : Int → Int) (env : IterEnv)
    (t : FdTable) : Option Run :=
  let (client, t1) := accept env.rnd.max t env.conn
  if client = -1 then
    some ⟨[.accept sd client], t1, .loop⟩
  else
    let moved : Option (Int × FdTable × List Event) :=
      if !cfg.debug && !cfg.norand then
        (ctf_randfd env.rnd t1 client).map
          (fun r => (r.ret, r.table, [Event.randfd client r.ret]))
      else
        some (client, t1, [])
    match moved with
    | none => none
    | some (client2, t2, ev) =>
      let pid := env.pid
      if pid = -1 then
        some ⟨[.accept sd client] ++ ev ++ [.fork pid], t2, .loop⟩
      else if pid ≠ 0 then
        some ⟨[.accept sd client] ++ ev ++ [.fork pid, .close client2],
          close t2 client2, .loop⟩
      else
        let status := handler client2
        some ⟨[.accept sd client] ++ ev ++ [.fork pid]
            ++ (if cfg.debug then [] else [.alarm 16])
            ++ [.close sd, .handler client2 status, .close client2, .exit status],
          close (close t2 sd) client2, .exited status⟩

/-- The `while (true)` loop of `ctf_server` on the answers the environment
gives to the successive iterations.  The run ends with `Next.loop` when the
answers are used up, and with `Next.exited` as soon as the process exits. -/
def serverLoop (cfg : Config) (sd : Int) (handler : Int → Int) :
    List IterEnv → FdTable → Option Run
  | [], t => some ⟨[], t, .loop⟩
  | env :: rest, t =>
    match serverIter cfg sd handler env t with
    | none => none
    | some r =>
      match r.next with
      | .exited _ => some r
      | .loop =>
        (serverLoop cfg sd handler rest r.table).map
          (fun r2 => ⟨r.trace ++ r2.trace, r2.table, r2.next⟩)

/-- The function `ctf_server(sd, handler)`. -/
def ctf_server (cfg : Config) (sd : Int) (handler : Int → Int)
    (envs : List IterEnv) (t : FdTable) : Option Run :=
  (serverLoop cfg sd handler envs t).map
    (fun r => ⟨(if cfg.norand then [] else [Event.srand]) ++ r.trace, r.table, r.next⟩)

/-! ## `ctf_privdrop` -/

/-- The fields of `struct passwd` that `ctf_privdrop` uses. -/
structure Passwd where
  pw_uid : Nat
  pw_gid : Nat
  pw_dir : String
  deriving DecidableEq, Repr

/-- Return values of the system calls of `ctf_privdrop`. -/
structure PrivEnv where
  /-- The entry found by `getpwnam(user)`, or `none` for a null result. -/
  getpwnam : Option Passwd
  setgroups : Int
  setgid : Int
  setuid : Int
  chroot : Int
  chdir : Int

/-- The calls `ctf_privdrop` makes, with their arguments. -/
inductive PrivCall where
  | getpwnam (user : String)
  | setgroups
  | setgid (gid : Nat)
  | setuid (uid : Nat)
  | chroot (dir : String)
  | chdir (dir : String)
  deriving DecidableEq, Repr

/-- The function `ctf_privdrop(user)`: the calls made, in order, and how the
function ends. -/
def ctf_privdrop (cfg : Config) (env : PrivEnv) (user : String) :
    List PrivCall × Outcome Unit :=
  match env.getpwnam with
  | none => ([.getpwnam user], .errx (-1) "Unable to find user")
  | some pwentry =>
    if env.setgroups < 0 then
      ([.getpwnam user, .setgroups], .errx (-1) "Unable to remove extra groups")
    else if env.setgid < 0 then
      ([.getpwnam user, .setgroups, .setgid pwentry.pw_gid],
        .errx (-1) "Unable to change GID")
    else if env.setuid < 0 then
      ([.getpwnam user, .setgroups, .setgid pwentry.pw_gid, .setuid pwentry.pw_uid],
        .errx (-1) "Unable to change UID")
    else if cfg.chroot then
      if env.chroot < 0 then
        ([.getpwnam user, .setgroups, .setgid pwentry.pw_gid, .setuid pwentry.pw_uid,
            .chroot pwentry.pw_dir],
          .errx (-1) "Unable to change current directory")
      else if env.chdir < 0 then
        ([.getpwnam user, .setgroups, .setgid pwentry.pw_gid, .setuid pwentry.pw_uid,
            .chroot pwentry.pw_dir, .chdir "/"],
          .errx (-1) "Unable to change current directory")
      else
        ([.getpwnam user, .setgroups, .setgid pwentry.pw_gid, .setuid pwentry.pw_uid,
            .chroot pwentry.pw_dir, .chdir "/"],
          .returned ())
    else
      if env.chdir < 0 then
        ([.getpwnam user, .setgroups, .setgid pwentry.pw_gid, .setuid pwentry.pw_uid,
            .chdir pwentry.pw_dir],
          .errx (-1) "Unable to change current directory")
      else
        ([.getpwnam user, .setgroups, .setgid pwentry.pw_gid, .setuid pwentry.pw_uid,
            .chdir pwentry.pw_dir],
          .returned ())

/-- Reference semantics of a fail-fast sequence: the steps are attempted in
the order of the list, each paired with whether it succeeds; the sequence
stops after the first step that fails.  The result is the list of steps
attempted and whether all of them succeeded. -/
def runSteps {α : Type} : List (α × Bool) → List α × Bool
  | [] => ([], true)
  | (a, ok) :: rest =>
    if ok then ((a :: (runSteps rest).1), (runSteps rest).2) else ([a], false)

/-- The steps of the privilege drop in the order the specification gives
them, each with its success according to the environment: account lookup,
clearing the supplementary groups, group id, user id, directory change (with
`_CHROOT`: `chroot` to the home directory, then `chdir("/")`). -/
def privSteps (cfg : Config) (env : PrivEnv) (user : String) (pw : Passwd) :
    List (PrivCall × Bool) :=
  [(.getpwnam user, env.getpwnam.isSome),
   (.setgroups, decide (0 ≤ env.setgroups)),
   (.setgid pw.pw_gid, decide (0 ≤ env.setgid)),
   (.setuid pw.pw_uid, decide (0 ≤ env.setuid))]
  ++ (if cfg.chroot then
        [(.chroot pw.pw_dir, decide (0 ≤ env.chroot)), (.chdir "/", decide (0 ≤ env.chdir))]
      else
        [(.chdir pw.pw_dir, decide (0 ≤ env.chdir))])

/-- Does the call return normally? -/
def Outcome.isReturned {α : Type} : Outcome α → Bool
  | .returned _ => true
  | .errx _ _ => false
  | .killed _ => false

/-- Is the call `setuid`? -/
def PrivCall.isSetuid : PrivCall → Bool
  | .setuid _ => true
  | _ => false

/-! ## `ctf_listen` -/

def IPPROTO_TCP : Int := 6
def IPPROTO_UDP : Int := 17
def IPPROTO_SCTP : Int := 132
def IPPROTO_RAW : Int := 255
def AF_INET : Int := 2
def AF_INET6 : Int := 10
def SOCK_STREAM : Int := 1
def SOCK_DGRAM : Int := 2
def SOCK_RAW : Int := 3
def SOCK_SEQPACKET : Int := 5

/-- Byte swap of a 16-bit value (little-endian host). -/
def htons (port : Nat) : Nat := (port % 256) * 256 + (port / 256) % 256

/-- The part of `struct sockaddr` that `ctf_listen` uses: the family and the
first two bytes of the address data (the port field). -/
structure Sockaddr where
  sa_family : Int
  sa_port : Nat
  deriving DecidableEq, Repr

/-- An entry of the list built by `getifaddrs`: the interface name and the
pointer `ifa_addr` to its address, which is null (`none`) for an interface
without an address. -/
structure Ifaddr where
  ifa_name : String
  ifa_addr : Option Sockaddr
  deriving DecidableEq, Repr

/-- Return values of the system calls of `ctf_listen`. -/
structure ListenEnv where
  /-- Whether `signal(SIGCHLD, SIG_IGN)` returns `SIG_ERR`. -/
  signalErr : Bool
  socket : Int
  setsockopt : Int
  /-- The interface list, or `none` when `getifaddrs` does not return 0. -/
  getifaddrs : Option (List Ifaddr)
  bind : Int
  listen : Int

/-- The system calls `ctf_listen` makes, with their arguments. -/
inductive SockCall where
  | signal
  | socket (domain type proto : Int)
  | setsockopt (sd : Int)
  | getifaddrs
  | freeifaddrs
  | bind (sd : Int) (iface : Option String) (family : Int) (port : Nat)
  | listen (sd : Int) (backlog : Int)
  deriving DecidableEq, Repr

/-- Is the call `bind`? -/
def SockCall.isBind : SockCall → Bool
  | .bind _ _ _ _ => true
  | _ => false

/-- Is the call `listen`? -/
def SockCall.isListen : SockCall → Bool
  | .listen _ _ => true
  | _ => false

/-- The address family selected at build time. -/
def domain (cfg : Config) : Int := if cfg.ipv6 then AF_INET6 else AF_INET

/-- Does the entry have both the configured address family and exactly the
name `iface`?  An entry without an address has no family. -/
def Ifaddr.isMatch (cfg : Config) (iface : String) (i : Ifaddr) : Bool :=
  match i.ifa_addr with
  | none => false
  | some a => decide (a.sa_family = domain cfg ∧ i.ifa_name = iface)

/-- The loop of `ctf_listen` over the interface list, started with `tmp`.
Each entry visited has `i->ifa_addr->sa_family` read first: for a null
`ifa_addr` that is an invalid access and the loop yields `none`.  The first
entry of the configured family with exactly the name `iface` gets its port
field patched and is bound, which ends the loop.  Returns the final `tmp`
and the calls made. -/
def ifaceLoop (cfg : Config) (env : ListenEnv) (sd : Int) (port : Nat) (iface : String)
    (tmp : Int) : List Ifaddr → Option Int × List SockCall
  | [] => (some tmp, [])
  | i :: rest =>
    match i.ifa_addr with
    | none => (none, [])
    | some a =>
      if a.sa_family = domain cfg ∧ i.ifa_name = iface then
        (some env.bind, [.bind sd (some i.ifa_name) a.sa_family (htons port)])
      else
        ifaceLoop cfg env sd port iface tmp rest

/-- Lines 47 to 120 of `ctf_listen`: signal disposition, socket creation,
reuse option and bind.  Returns the socket when line 122 is reached; the
process is killed when the interface loop reads through a null `ifa_addr`. -/
def listenSetup (cfg : Config) (env : ListenEnv) (port : Nat) (proto : Int)
    (iface : Option String) : List SockCall × Outcome Int :=
  if env.signalErr then
    ([.signal], .errx (-1) "Unable to set SIGCHLD handler")
  else
    let created : Int × List SockCall :=
      if proto = IPPROTO_RAW then (env.socket, [.socket (domain cfg) SOCK_RAW proto])
      else if proto = IPPROTO_SCTP then
        (env.socket, [.socket (domain cfg) SOCK_SEQPACKET proto])
      else if proto = IPPROTO_UDP then (env.socket, [.socket (domain cfg) SOCK_DGRAM proto])
      else if proto = IPPROTO_TCP then (env.socket, [.socket (domain cfg) SOCK_STREAM proto])
      else (-1, [])
    let sd := created.1
    if sd < 0 then
      ([.signal] ++ created.2, .errx (-1) "Unable to create socket")
    else if env.setsockopt = -1 then
      ([.signal] ++ created.2 ++ [.setsockopt sd],
        .errx (-1) "Unable to set socket reuse option")
    else
      match iface with
      | none =>
        if env.bind < 0 then
          ([.signal] ++ created.2 ++ [.setsockopt sd,
              .bind sd none (domain cfg) (htons port)],
            .errx (-1) "Unable to bind socket")
        else
          ([.signal] ++ created.2 ++ [.setsockopt sd,
              .bind sd none (domain cfg) (htons port)],
            .returned sd)
      | some name =>
        let found : Option Int × List SockCall :=
          match env.getifaddrs with
          | some ifa => ifaceLoop cfg env sd port name (-1) ifa
          | none => (some (-1), [])
        match found.1 with
        | none =>
          ([.signal] ++ created.2 ++ [.setsockopt sd, .getifaddrs] ++ found.2,
            .killed SIGSEGV)
        | some tmp =>
          if tmp ≠ 0 then
            ([.signal] ++ created.2 ++ [.setsockopt sd, .getifaddrs] ++ found.2
                ++ [.freeifaddrs],
              .errx (-1) "Unable to bind socket")
          else
            ([.signal] ++ created.2 ++ [.setsockopt sd, .getifaddrs] ++ found.2
                ++ [.freeifaddrs],
              .returned sd)

/-- The function `ctf_listen(port, proto, iface)`: the system calls made, in
order, and how the function ends. -/
def ctf_listen (cfg : Config) (env : ListenEnv) (port : Nat) (proto : Int)
    (iface : Option String) : List SockCall × Outcome Int :=
  match listenSetup cfg env port proto iface with
  | (calls, .errx eval msg) => (calls, .errx eval msg)
  | (calls, .killed sig) => (calls, .killed sig)
  | (calls, .returned sd) =>
    if proto ≠ IPPROTO_UDP ∧ proto ≠ IPPROTO_RAW then
      if env.listen = -1 then
        (calls ++ [.listen sd 16], .errx (-1) "Unable to listen on socket")
      else
        (calls ++ [.listen sd 16], .returned sd)
    else
      (calls, .returned sd)

/-! ## `ctf_readsn` -/

/-- A buffer in memory: the byte stored at each index from its start. -/
abbrev Buffer := Nat → Nat

/-- The loop of `ctf_readsn` from `count` on.  `input` lists the bytes that
the successive calls `read(fd, &tmp, 1)` deliver; when it is used up the next
read returns a value `<= 0`.  Returns the final `count` and the stores
`msg[index] = value` made, in order.  The newline is the byte 10. -/
def readsnLoop (len : Nat) : Nat → List Nat → Nat × List (Nat × Nat)
  | count, [] => (count, [])
  | count, tmp :: rest =>
    if count < len then
      if tmp = 10 then (count, [(count, 0)])
      else
        ((readsnLoop len (count + 1) rest).1,
          (count, tmp) :: (readsnLoop len (count + 1) rest).2)
    else (count, [])

/-- The buffer after the stores `ws` have been made, in order. -/
def applyStores (buf : Buffer) (ws : List (Nat × Nat)) : Buffer :=
  ws.foldl (fun b w => fun i => if i = w.1 then w.2 else b i) buf

/-- Result of `ctf_readsn`: the `int` returned, the stores made into `msg`
and the contents of `msg` afterwards. -/
structure ReadsnResult where
  ret : Int
  stores : List (Nat × Nat)
  msg : Buffer

/-- The function `ctf_readsn(fd, msg, len)`; `msg` is `none` for a null
pointer, `len` is an `unsigned int`, and the `unsigned int` counter is
converted to `int` on return. -/
def ctf_readsn (fd : Int) (msg : Option Buffer) (len : Nat) (input : List Nat) :
    ReadsnResult :=
  match msg with
  | none => ⟨toInt32 0, [], fun _ => 0⟩
  | some buf =>
    if 0 ≤ fd ∧ len ≠ 0 then
      let r := readsnLoop len 0 input
      ⟨toInt32 r.1, r.2, applyStores buf r.2⟩
    else
      ⟨toInt32 0, [], buf⟩

/-! ## `ctf_writen` -/

/-- The value of type `ssize_t` returned by `write`: a byte count, or `-1`
for an error (`none`). -/
def ssize : Option Nat → Int
  | none => -1
  | some n => n

/-- One call `write(fd, msg + offset, req)` and the value kept in `prev`. -/
structure WriteCall where
  offset : Nat
  req : Nat
  prev : Int
  deriving DecidableEq, Repr

/-- The loop of `ctf_writen` from `count` on.  The oracle `w k offset req`
is the result of the call number `k`, a write of `req` bytes at `offset`.
`prev` is an `int`, `count` an `unsigned int`.  Returns the value returned by
`ctf_writen` and the calls made; `none` when the loop has not ended after
`fuel` iterations. -/
def writenLoop (len : Nat) (w : Nat → Nat → Nat → Option Nat) :
    Nat → Nat → Nat → Option (Int × List WriteCall)
  | 0, _, count => if count < len then none else some (toInt32 count, [])
  | fuel + 1, k, count =>
    if count < len then
      let prev := toInt32 (ssize (w k count (len - count)))
      if prev ≤ 0 then
        some (prev, [⟨count, len - count, prev⟩])
      else
        (writenLoop len w fuel (k + 1) ((count + prev.toNat) % 4294967296)).map
          (fun r => (r.1, ⟨count, len - count, prev⟩ :: r.2))
    else
      some (toInt32 count, [])

/-- The function `ctf_writen(fd, msg, len)`; `msgNull` tells whether `msg`
is a null pointer.  The loop is given `len` iterations, which is enough
whenever no write returns more than it was asked for. -/
def ctf_writen (fd : Int) (msgNull : Bool) (len : Nat)
    (w : Nat → Nat → Nat → Option Nat) : Option (Int × List WriteCall) :=
  if 0 ≤ fd ∧ msgNull = false ∧ len ≠ 0 then
    writenLoop len w len 0 0
  else
    some (toInt32 0, [])

/-- The calls of a trace are those of the write oracle `w`, chained from the
call number `k` and the offset `off`: each call is issued while bytes remain
(`off < len`), at the current offset and for the remaining length; the
value it records is the one `write` returned for that call; and the next
call has the next number and the offset advanced by that value. -/
def Chained (len : Nat) (w : Nat → Nat → Nat → Option Nat) :
    Nat → Nat → List WriteCall → Prop
  | _, _, [] => True
  | k, off, c :: cs =>
    off < len ∧ c.offset = off ∧ c.req = len - off ∧
      c.prev = ssize (w k off (len - off)) ∧
      Chained len w (k + 1) (off + c.prev.toNat) cs

/-! ## Concrete tables and environments used in the evaluations -/

/-- The table of the server before a connection is accepted: standard
streams 0, 1, 2 and the listening socket 3. -/
def listenTable : FdTable := fun fd => if 0 ≤ fd ∧ fd ≤ 3 then some fd.toNat else none

/-- The default build: no switch is set. -/
def defaultConfig : Config := ⟨false, false, false, false⟩

/-- A handler that returns its descriptor plus one. -/
def sampleHandler (fd : Int) : Int := fd + 1

/-- A `write` that transfers at most three bytes per call. -/
def sampleWrite (_ _ req : Nat) : Option Nat := some (min req 3)

/-- An iteration seen from the child: a connection is delivered,
`/dev/urandom` yields the bytes `09 01`, and `fork` returns 0. -/
def sampleChildEnv : IterEnv := ⟨some 40, ⟨1024, some 77, [[9, 1]], []⟩, 0⟩

/-! ### The search never ends when `max < old` -/

theorem randLoop_stuck (max old : Int) (hmax : 0 < max) (hold : max < old) :
    ∀ (rs : List Nat) (new : Int), new < old → randLoop max old new rs = none := by
  intro rs
  induction rs with
  | nil => intro new h; simp [randLoop, h]
  | cons r rs ih =>
    intro new h
    have hb : randBody max r < old :=
      lt_trans (Int.tmod_lt_of_pos _ hmax) hold
    simp [randLoop, h, ih _ hb]

theorem urandomLoop_stuck (max old : Int) (hmax : 0 < max) (hold : max < old) :
    ∀ (bs : List (List Nat)) (new : Int), new < old → urandomLoop max old new bs = none := by
  intro bs
  induction bs with
  | nil => intro new h; simp [urandomLoop, h]
  | cons b bs ih =>
    intro new h
    have hb : urandomBody max new b < old :=
      lt_trans (Int.tmod_lt_of_pos _ hmax) hold
    simp [urandomLoop, h, ih _ hb]

theorem randBody_foldl_lt (max old : Int) (hmax : 0 < max) (hold : max < old) :
    ∀ (rs : List Nat) (new : Int), new < old →
      rs.foldl (fun _ r => randBody max r) new < old := by
  intro rs
  induction rs with
  | nil => intro new h; simpa using h
  | cons r rs ih =>
    intro new _
    exact ih _ (lt_trans (Int.tmod_lt_of_pos _ hmax) hold)

theorem urandomBody_foldl_lt (max old : Int) (hmax : 0 < max) (hold : max < old) :
    ∀ (bs : List (List Nat)) (new : Int), new < old →
      bs.foldl (urandomBody max) new < old := by
  intro bs
  induction bs with
  | nil => intro new h; simpa using h
  | cons b bs ih =>
    intro new _
    exact ih _ (lt_trans (Int.tmod_lt_of_pos _ hmax) hold)

/-- C10: when the table size is positive and smaller than `old`, the loop
condition `new < old` holds after any number of iterations on any values of
the random source (both loops), so both loops and `ctf_randfd` itself never
produce a result: `dup2` is never reached. -/
theorem ctf_randfd_spins (env : RandEnv) (t : FdTable) (old : Int)
    (hmax : 0 < env.max) (hold : env.max < old) :
    (∀ rs : List Nat, rs.foldl (fun _ r => randBody env.max r) 0 < old) ∧
    (∀ bs : List (List Nat), bs.foldl (urandomBody env.max) 0 < old) ∧
    (∀ rs : List Nat, randLoop env.max old 0 rs = none) ∧
    (∀ bs : List (List Nat), urandomLoop env.max old 0 bs = none) ∧
    ctf_randfd env t old = none := by
  have h0 : (0 : Int) < old := lt_trans hmax hold
  refine ⟨fun rs => randBody_foldl_lt _ _ hmax hold rs 0 h0,
    fun bs => urandomBody_foldl_lt _ _ hmax hold bs 0 h0,
    fun rs => randLoop_stuck _ _ hmax hold rs 0 h0,
    fun bs => urandomLoop_stuck _ _ hmax hold bs 0 h0, ?_⟩
  simp [ctf_randfd, randLoop_stuck _ _ hmax hold _ 0 h0,
    urandomLoop_stuck _ _ hmax hold _ 0 h0]

theorem ctf_randfd_spins_witness :
    (0 : Int) < (RandEnv.mk 4 (some 9) [[1, 0], [3, 0]] [5, 6]).max ∧
    (RandEnv.mk 4 (some 9) [[1, 0], [3, 0]] [5, 6]).max < 5 ∧
    ctf_randfd (RandEnv.mk 4 (some 9) [[1, 0], [3, 0]] [5, 6]) serverTable 5 = none :=
  ⟨by decide, by decide,
    (ctf_randfd_spins (RandEnv.mk 4 (some 9) [[1, 0], [3, 0]] [5, 6]) serverTable 5
      (by decide) (by decide)).2.2.2.2⟩


/-! ### What `ctf_randfd` does guarantee -/

theorem storeLE_nonneg (new : Int) (h : 0 ≤ new) : ∀ bytes : List Nat, 0 ≤ storeLE new bytes
  | [] => h
  | [b0] => by
    simp only [storeLE]
    omega
  | b0 :: b1 :: _ => by
    simp only [storeLE]
    omega

theorem randLoop_bounds (max old : Int) (hmax : 0 < max) :
    ∀ (rs : List Nat) (new c : Int), 0 ≤ new → new < max →
      randLoop max old new rs = some c → old ≤ c ∧ 0 ≤ c ∧ c < max := by
  intro rs
  induction rs with
  | nil =>
    intro new c h0 h1 h
    unfold randLoop at h
    split_ifs at h with hlt
    simp only [Option.some.injEq] at h
    subst h
    exact ⟨by omega, h0, h1⟩
  | cons r rs ih =>
    intro new c h0 h1 h
    unfold randLoop at h
    split_ifs at h with hlt
    · exact ih _ c (Int.tmod_nonneg _ (Int.ofNat_nonneg r)) (Int.tmod_lt_of_pos _ hmax) h
    · simp only [Option.some.injEq] at h
      subst h
      exact ⟨by omega, h0, h1⟩

theorem urandomLoop_bounds (max old : Int) (hmax : 0 < max) :
    ∀ (bs : List (List Nat)) (new c : Int), 0 ≤ new → new < max →
      urandomLoop max old new bs = some c → old ≤ c ∧ 0 ≤ c ∧ c < max := by
  intro bs
  induction bs with
  | nil =>
    intro new c h0 h1 h
    unfold urandomLoop at h
    split_ifs at h with hlt
    simp only [Option.some.injEq] at h
    subst h
    exact ⟨by omega, h0, h1⟩
  | cons b bs ih =>
    intro new c h0 h1 h
    unfold urandomLoop at h
    split_ifs at h with hlt
    · exact ih _ c (Int.tmod_nonneg _ (storeLE_nonneg new h0 b))
        (Int.tmod_lt_of_pos _ hmax) h
    · simp only [Option.some.injEq] at h
      subst h
      exact ⟨by omega, h0, h1⟩

/-- Whenever the search ends, for `0 <= old < max`, the candidate handed to
`dup2` is at least `old` and less than the table size. -/
theorem ctf_randfd_candidate_bounds (env : RandEnv) (t : FdTable) (old : Int)
    (r : RandfdResult) (hold : 0 ≤ old) (hlt : old < env.max)
    (h : ctf_randfd env t old = some r) :
    old ≤ r.candidate ∧ r.candidate < env.max := by
  have hmax : 0 < env.max := by omega
  unfold ctf_randfd at h
  simp only at h
  split at h
  · exact absurd h (by simp)
  · rename_i new t2 hsearch
    have hb : old ≤ new ∧ 0 ≤ new ∧ new < env.max := by
      split_ifs at hsearch
      · cases hl : randLoop env.max old 0 env.rands with
        | none => simp [hl] at hsearch
        | some c =>
          simp only [hl, Option.map_some', Option.some.injEq, Prod.mk.injEq] at hsearch
          rw [← hsearch.1]
          exact randLoop_bounds _ _ hmax _ 0 c (le_refl _) hmax hl
      · cases hl : urandomLoop env.max old 0 env.reads with
        | none => simp [hl] at hsearch
        | some c =>
          simp only [hl, Option.map_some', Option.some.injEq, Prod.mk.injEq] at hsearch
          rw [← hsearch.1]
          exact urandomLoop_bounds _ _ hmax _ 0 c (le_refl _) hmax hl
    split_ifs at h <;>
    · simp only [Option.some.injEq] at h
      subst h
      exact ⟨hb.1, hb.2.2⟩

theorem lowestFreeFrom_free (t : FdTable) :
    ∀ (k : Nat) (fd x : Int), lowestFreeFrom t fd k = some x → t x = none ∧ fd ≤ x := by
  intro k
  induction k with
  | zero => intro fd x h; simp [lowestFreeFrom] at h
  | succ k ih =>
    intro fd x h
    unfold lowestFreeFrom at h
    split_ifs at h with hfree
    · simp only [Option.some.injEq] at h
      subst h
      exact ⟨by simpa using hfree, le_refl _⟩
    · obtain ⟨h1, h2⟩ := ih _ _ h
      exact ⟨h1, by omega⟩

theorem openUrandom_keeps (env : RandEnv) (t : FdTable) (old : Int) (f : Nat)
    (hopen : t old = some f) :
    (openUrandom env t).2 old = some f ∧
    (¬ (openUrandom env t).1 < 0 →
      (close (openUrandom env t).2 (openUrandom env t).1) old = some f) := by
  unfold openUrandom
  cases env.urandom with
  | none => simp [hopen]
  | some u =>
    simp only
    cases hl : lowestFreeFrom t 0 env.max.toNat with
    | none => simp [hopen]
    | some fd =>
      have hfree := (lowestFreeFrom_free t _ _ _ hl).1
      have hne : old ≠ fd := by
        intro e
        rw [e, hfree] at hopen
        exact absurd hopen (by simp)
      simp [close, FdTable.set, hopen, hne]

/-- Whenever the search ends with a candidate different from `old`, the
descriptor returned by `ctf_randfd` is open afterwards and refers to the open
file that `old` referred to before the call. -/
theorem ctf_randfd_ok_of_candidate_ne (env : RandEnv) (t : FdTable) (old : Int) (f : Nat)
    (r : RandfdResult) (hopen : t old = some f)
    (h : ctf_randfd env t old = some r) (hne : r.candidate ≠ old) :
    r.table r.ret = some f := by
  obtain ⟨hk1, hk2⟩ := openUrandom_keeps env t old f hopen
  unfold ctf_randfd at h
  simp only at h
  split at h
  · exact absurd h (by simp)
  · rename_i new t2 hsearch
    have ht2 : t2 old = some f := by
      split_ifs at hsearch with hfd
      · cases hl : randLoop env.max old 0 env.rands with
        | none => simp [hl] at hsearch
        | some c =>
          simp only [hl, Option.map_some', Option.some.injEq, Prod.mk.injEq] at hsearch
          rw [← hsearch.2]
          exact hk1
      · cases hl : urandomLoop env.max old 0 env.reads with
        | none => simp [hl] at hsearch
        | some c =>
          simp only [hl, Option.map_some', Option.some.injEq, Prod.mk.injEq] at hsearch
          rw [← hsearch.2]
          exact hk2 hfd
    unfold dup2 at h
    simp only [ht2] at h
    by_cases hrange : new < 0 ∨ env.max ≤ new
    · simp only [hrange, if_true, Option.some.injEq] at h
      subst h
      exact ht2
    · simp only [hrange, if_false] at h
      by_cases heq : new = old
      · simp only [heq, if_true] at h
        split_ifs at h <;>
        · simp only [Option.some.injEq] at h
          subst h
          exact absurd rfl hne
      · have hnn : ¬ new = -1 := by omega
        simp only [heq, if_false, hnn, Option.some.injEq] at h
        subst h
        simp [close, FdTable.set, heq]

/-! ### `ctf_randfd` may hand `old` itself to `dup2` -/

/-- C1 (evaluation): descriptor 4 is open, the table holds 1024 descriptors,
`/dev/urandom` cannot be opened and `rand()` returns 1028.  The search ends
with the candidate 4, `dup2(4, 4)` succeeds without effect, `close(4)` removes
the entry, and `ctf_randfd` returns 4, which is closed in the resulting
table. -/
theorem ctf_randfd_returns_closed :
    serverTable 4 = some 4 ∧
    (ctf_randfd ⟨1024, none, [], [1028]⟩ serverTable 4).map
      (fun r => (r.candidate, r.ret, r.table r.ret)) = some (4, 4, none) := by
  decide

/-- C2 (evaluation): the candidate handed to `dup2` equals `old`, it is not
strictly greater: for `old = 0` the loop body never runs (`/dev/urandom`
path), and for `old = 4` with table size 1024 the bytes `04 04` read from
`/dev/urandom` give `1028 % 1024 = 4`. -/
theorem ctf_randfd_candidate_eq_old :
    (ctf_randfd ⟨1024, some 77, [], []⟩ serverTable 0).map (fun r => r.candidate) = some 0 ∧
    (ctf_randfd ⟨1024, some 77, [[4, 4]], []⟩ serverTable 4).map (fun r => r.candidate)
      = some 4 := by
  decide

/-! ### `ctf_server` -/

/-- C3 (evaluation): in the default build, with descriptors 0 to 3 open and
the listening socket 3, `accept` delivers a connection on descriptor 4,
`ctf_randfd` moves it to 265 and `fork` returns `-1`.  The iteration makes no
call of `close` and goes back to `accept` with descriptor 265 open, which was
closed before the iteration. -/
theorem serverIter_fork_failure_leaks :
    listenTable 265 = none ∧
    (serverIter defaultConfig 3 sampleHandler
        ⟨some 40, ⟨1024, some 77, [[9, 1]], []⟩, -1⟩ listenTable).map
      (fun r => (r.trace, r.next, r.table 265))
      = some ([.accept 3 4, .randfd 4 265, .fork (-1)], .loop, some 40) := by
  decide

theorem serverIter_child (cfg : Config) (sd : Int) (handler : Int → Int)
    (env : IterEnv) (t : FdTable) (client : Int) (t2 : FdTable) (ev : List Event)
    (hc0 : (accept env.rnd.max t env.conn).1 ≠ -1)
    (hmoved : (if (!cfg.debug && !cfg.norand) = true then
        (ctf_randfd env.rnd (accept env.rnd.max t env.conn).2
            (accept env.rnd.max t env.conn).1).map
          (fun r => (r.ret, r.table,
            [Event.randfd (accept env.rnd.max t env.conn).1 r.ret]))
      else
        some ((accept env.rnd.max t env.conn).1, (accept env.rnd.max t env.conn).2, []))
      = some (client, t2, ev))
    (hpid : env.pid = 0) :
    serverIter cfg sd handler env t
      = some ⟨[Event.accept sd (accept env.rnd.max t env.conn).1] ++ ev ++ [Event.fork 0]
            ++ (if cfg.debug then [] else [Event.alarm 16])
            ++ [Event.close sd, Event.handler client (handler client), Event.close client,
                Event.exit (handler client)],
          close (close t2 sd) client, Next.exited (handler client)⟩ := by
  unfold serverIter
  simp only [hc0, if_false, hmoved, hpid, show ¬ ((0 : Int) = -1) by decide, ne_eq,
    not_true_eq_false]

/-- C4: take an iteration of `ctf_server` in which `accept` delivers the
descriptor `c0`, the connection descriptor at the time of the fork is
`client` (the value `ctf_randfd` returns for `c0` in a build that randomizes,
`c0` itself under `_DEBUG` or `_NORAND`), and `fork` returns 0.  Then the
events of the iteration are exactly: the `accept`, the randomization if any,
the fork, the alarm (unless `_DEBUG`), `close(sd)`, one call of the handler
on `client`, `close(client)`, and `exit` with the value the handler returned.
The handler is called exactly once, after `close(sd)`; `sd` and `client` are
closed in the child's table; the process has exited with the handler's
value; and whatever the environment would answer to later iterations, the
run of `ctf_server` ends with this iteration: `accept` is not reached
again. -/
theorem ctf_server_child_runs_handler_once (cfg : Config) (sd : Int)
    (handler : Int → Int) (env : IterEnv) (rest : List IterEnv) (t : FdTable)
    (c0 client : Int)
    (hacc : (accept env.rnd.max t env.conn).1 = c0)
    (hc0 : c0 ≠ -1)
    (hrand : if cfg.debug = false ∧ cfg.norand = false then
        (ctf_randfd env.rnd (accept env.rnd.max t env.conn).2 c0).map RandfdResult.ret
          = some client
      else client = c0)
    (hpid : env.pid = 0) :
    ∃ tr,
      tr = [Event.accept sd c0]
        ++ (if cfg.debug = false ∧ cfg.norand = false then [Event.randfd c0 client] else [])
        ++ [Event.fork 0]
        ++ (if cfg.debug then [] else [Event.alarm 16])
        ++ [Event.close sd, Event.handler client (handler client), Event.close client,
            Event.exit (handler client)] ∧
      (serverIter cfg sd handler env t).map Run.trace = some tr ∧
      tr.countP Event.isHandler = 1 ∧
      tr.countP Event.isAccept = 1 ∧
      (serverIter cfg sd handler env t).map Run.next
        = some (Next.exited (handler client)) ∧
      (serverIter cfg sd handler env t).map (fun r => (r.table sd, r.table client))
        = some (none, none) ∧
      serverLoop cfg sd handler (env :: rest) t = serverIter cfg sd handler env t ∧
      (ctf_server cfg sd handler (env :: rest) t).map Run.trace
        = some ((if cfg.norand then [] else [Event.srand]) ++ tr) ∧
      (ctf_server cfg sd handler (env :: rest) t).map Run.next
        = some (Next.exited (handler client)) := by
  subst hacc
  have hmoved : ∃ t2,
      (if (!cfg.debug && !cfg.norand) = true then
        (ctf_randfd env.rnd (accept env.rnd.max t env.conn).2
            (accept env.rnd.max t env.conn).1).map
          (fun r => (r.ret, r.table,
            [Event.randfd (accept env.rnd.max t env.conn).1 r.ret]))
      else
        some ((accept env.rnd.max t env.conn).1, (accept env.rnd.max t env.conn).2, []))
      = some (client, t2,
          if cfg.debug = false ∧ cfg.norand = false then
            [Event.randfd (accept env.rnd.max t env.conn).1 client]
          else []) := by
    by_cases hcond : cfg.debug = false ∧ cfg.norand = false
    · simp only [hcond, and_self, if_true] at hrand ⊢
      cases hr : ctf_randfd env.rnd (accept env.rnd.max t env.conn).2
          (accept env.rnd.max t env.conn).1 with
      | none => simp [hr] at hrand
      | some rr =>
        simp only [hr, Option.map_some', Option.some.injEq] at hrand
        exact ⟨rr.table, by simp [hrand]⟩
    · simp only [hcond, if_false] at hrand ⊢
      have hb : (!cfg.debug && !cfg.norand) = false := by
        cases hd : cfg.debug <;> cases hn : cfg.norand <;> simp_all
      exact ⟨(accept env.rnd.max t env.conn).2, by simp [hb, hrand]⟩
  obtain ⟨t2, hmoved⟩ := hmoved
  have hiter := serverIter_child cfg sd handler env t client t2 _ hc0 hmoved hpid
  have hloop : serverLoop cfg sd handler (env :: rest) t
      = serverIter cfg sd handler env t := by
    simp [serverLoop, hiter]
  refine ⟨_, rfl, by simp [hiter], ?_, ?_, by simp [hiter], ?_, hloop, ?_, ?_⟩
  · by_cases hcond : cfg.debug = false ∧ cfg.norand = false <;> cases cfg.debug <;>
      simp [hcond, List.countP_append, List.countP_cons, Event.isHandler]
  · by_cases hcond : cfg.debug = false ∧ cfg.norand = false <;> cases cfg.debug <;>
      simp [hcond, List.countP_append, List.countP_cons, Event.isAccept]
  · simp [hiter, close, FdTable.set]
  · simp [ctf_server, hloop, hiter]
  · simp [ctf_server, hloop, hiter]

theorem ctf_server_child_runs_handler_once_witness :
    (accept sampleChildEnv.rnd.max listenTable sampleChildEnv.conn).1 = 4 ∧
    (4 : Int) ≠ -1 ∧
    (if defaultConfig.debug = false ∧ defaultConfig.norand = false then
        (ctf_randfd sampleChildEnv.rnd
          (accept sampleChildEnv.rnd.max listenTable sampleChildEnv.conn).2 4).map
            RandfdResult.ret = some 265
      else (265 : Int) = 4) ∧
    sampleChildEnv.pid = 0 ∧
    ∃ tr,
      tr = [Event.accept 3 4]
        ++ (if defaultConfig.debug = false ∧ defaultConfig.norand = false then
              [Event.randfd 4 265] else [])
        ++ [Event.fork 0]
        ++ (if defaultConfig.debug then [] else [Event.alarm 16])
        ++ [Event.close 3, Event.handler 265 (sampleHandler 265), Event.close 265,
            Event.exit (sampleHandler 265)] ∧
      (serverIter defaultConfig 3 sampleHandler sampleChildEnv listenTable).map Run.trace
        = some tr ∧
      tr.countP Event.isHandler = 1 ∧
      tr.countP Event.isAccept = 1 ∧
      (serverIter defaultConfig 3 sampleHandler sampleChildEnv listenTable).map Run.next
        = some (Next.exited (sampleHandler 265)) ∧
      (serverIter defaultConfig 3 sampleHandler sampleChildEnv listenTable).map
          (fun r => (r.table 3, r.table 265))
        = some (none, none) ∧
      serverLoop defaultConfig 3 sampleHandler (sampleChildEnv :: [sampleChildEnv]) listenTable
        = serverIter defaultConfig 3 sampleHandler sampleChildEnv listenTable ∧
      (ctf_server defaultConfig 3 sampleHandler (sampleChildEnv :: [sampleChildEnv])
          listenTable).map Run.trace
        = some ((if defaultConfig.norand then [] else [Event.srand]) ++ tr) ∧
      (ctf_server defaultConfig 3 sampleHandler (sampleChildEnv :: [sampleChildEnv])
          listenTable).map Run.next
        = some (Next.exited (sampleHandler 265)) :=
  ⟨by decide, by decide, by decide, by decide,
    ctf_server_child_runs_handler_once defaultConfig 3 sampleHandler sampleChildEnv
      [sampleChildEnv] listenTable 4 265 (by decide) (by decide) (by decide) (by decide)⟩

/-! ### `ctf_listen` -/

theorem ifaceLoop_no_match (cfg : Config) (env : ListenEnv) (sd : Int) (port : Nat)
    (name : String) (tmp : Int) :
    ∀ l : List Ifaddr, (∀ i ∈ l, i.ifa_addr.isSome = true) →
      (∀ i ∈ l, i.isMatch cfg name = false) →
      ifaceLoop cfg env sd port name tmp l = (some tmp, []) := by
  intro l
  induction l with
  | nil => intro _ _; rfl
  | cons i rest ih =>
    intro haddr h
    have hi := h i (List.mem_cons_self _ _)
    have ha := haddr i (List.mem_cons_self _ _)
    have hrest := ih (fun j hj => haddr j (List.mem_cons_of_mem _ hj))
      (fun j hj => h j (List.mem_cons_of_mem _ hj))
    unfold ifaceLoop
    cases hia : i.ifa_addr with
    | none => simp [hia] at ha
    | some a =>
      have hcond : ¬ (a.sa_family = domain cfg ∧ i.ifa_name = name) := by
        simpa [Ifaddr.isMatch, hia] using hi
      simp only [hcond, if_false, hrest]

theorem ifaceLoop_no_listen (cfg : Config) (env : ListenEnv) (sd : Int) (port : Nat)
    (name : String) (tmp : Int) :
    ∀ l : List Ifaddr, ∀ c ∈ (ifaceLoop cfg env sd port name tmp l).2, c.isListen = false := by
  intro l
  induction l with
  | nil => intro c hc; simp [ifaceLoop] at hc
  | cons i rest ih =>
    intro c hc
    unfold ifaceLoop at hc
    cases hia : i.ifa_addr with
    | none => simp [hia] at hc
    | some a =>
      simp only [hia] at hc
      split_ifs at hc
      · simp only [List.mem_singleton] at hc
        subst hc
        rfl
      · exact ih c hc

theorem listenSetup_returned (cfg : Config) (env : ListenEnv) (port : Nat) (proto : Int)
    (iface : Option String) (calls : List SockCall) (sd : Int)
    (h : listenSetup cfg env port proto iface = (calls, .returned sd)) :
    (proto = IPPROTO_TCP ∨ proto = IPPROTO_SCTP ∨ proto = IPPROTO_UDP ∨ proto = IPPROTO_RAW) ∧
    sd = env.socket ∧ 0 ≤ sd ∧ (∀ c ∈ calls, c.isListen = false) := by
  unfold listenSetup at h
  by_cases hs : env.signalErr = true
  · simp [hs] at h
  · simp only [hs, if_false, Bool.false_eq_true] at h
    generalize hcreated :
      (if proto = IPPROTO_RAW then (env.socket, [SockCall.socket (domain cfg) SOCK_RAW proto])
        else if proto = IPPROTO_SCTP then
          (env.socket, [SockCall.socket (domain cfg) SOCK_SEQPACKET proto])
        else if proto = IPPROTO_UDP then
          (env.socket, [SockCall.socket (domain cfg) SOCK_DGRAM proto])
        else if proto = IPPROTO_TCP then
          (env.socket, [SockCall.socket (domain cfg) SOCK_STREAM proto])
        else ((-1 : Int), ([] : List SockCall))) = created at h
    have hfacts : (created.1 < 0 ∨
        ((proto = IPPROTO_TCP ∨ proto = IPPROTO_SCTP ∨ proto = IPPROTO_UDP ∨
            proto = IPPROTO_RAW) ∧ created.1 = env.socket)) ∧
        ∀ c ∈ created.2, c.isListen = false := by
      rw [← hcreated]
      split_ifs <;> simp [SockCall.isListen, *]
    obtain ⟨hsock, hnl⟩ := hfacts
    clear hcreated
    by_cases hneg : created.1 < 0
    · simp [hneg] at h
    · simp only [hneg, if_false] at h
      have hfour := hsock.resolve_left hneg
      by_cases hopt : env.setsockopt = -1
      · simp [hopt] at h
      · simp only [hopt, if_false] at h
        cases iface with
        | none =>
          simp only at h
          split_ifs at h
          · simp at h
          simp only [Prod.mk.injEq, Outcome.returned.injEq] at h
          obtain ⟨hcalls, hsd⟩ := h
          subst hcalls hsd
          refine ⟨hfour.1, hfour.2, by omega, ?_⟩
          intro c hc
          simp only [List.mem_append, List.mem_singleton, List.mem_cons,
            List.not_mem_nil, or_false] at hc
          rcases hc with (hc | hc) | hc | hc
          · subst hc; rfl
          · exact hnl c hc
          · subst hc; rfl
          · subst hc; rfl
        | some name =>
          simp only at h
          have hfound : ∀ c ∈ (match env.getifaddrs with
              | some ifa => ifaceLoop cfg env created.1 port name (-1) ifa
              | none => (some (-1), [])).2, c.isListen = false := by
            intro c hc
            cases hg : env.getifaddrs with
            | none => simp [hg] at hc
            | some ifa =>
              simp only [hg] at hc
              exact ifaceLoop_no_listen cfg env _ port name (-1) ifa c hc
          revert hfound h
          generalize (match env.getifaddrs with
              | some ifa => ifaceLoop cfg env created.1 port name (-1) ifa
              | none => (some (-1), [])) = found
          intro h hfound
          obtain ⟨ftmp, fcalls⟩ := found
          cases ftmp with
          | none => simp at h
          | some tmp =>
            simp only at h hfound
            split_ifs at h
            · simp at h
            simp only [Prod.mk.injEq, Outcome.returned.injEq] at h
            obtain ⟨hcalls, hsd⟩ := h
            subst hcalls hsd
            refine ⟨hfour.1, hfour.2, by omega, ?_⟩
            intro c hc
            simp only [List.mem_append, List.mem_singleton, List.mem_cons,
              List.not_mem_nil, or_false] at hc
            rcases hc with (((hc | hc) | hc | hc) | hc) | hc
            · subst hc; rfl
            · exact hnl c hc
            · subst hc; rfl
            · subst hc; rfl
            · exact hfound c hc
            · subst hc; rfl

theorem listenSetup_unknown_iface (cfg : Config) (env : ListenEnv) (port : Nat)
    (proto : Int) (name : String) (l : List Ifaddr)
    (hl : env.getifaddrs = some l)
    (haddr : ∀ i ∈ l, i.ifa_addr.isSome = true)
    (hno : ∀ i ∈ l, i.isMatch cfg name = false) :
    (∀ c ∈ (listenSetup cfg env port proto (some name)).1, c.isBind = false) ∧
    ∃ msg, (listenSetup cfg env port proto (some name)).2 = .errx (-1) msg := by
  unfold listenSetup
  by_cases hs : env.signalErr = true
  · simp [hs, SockCall.isBind]
  · simp only [hs, if_false, Bool.false_eq_true]
    have hcr0 : ∀ c ∈ (if proto = IPPROTO_RAW then
          (env.socket, [SockCall.socket (domain cfg) SOCK_RAW proto])
        else if proto = IPPROTO_SCTP then
          (env.socket, [SockCall.socket (domain cfg) SOCK_SEQPACKET proto])
        else if proto = IPPROTO_UDP then
          (env.socket, [SockCall.socket (domain cfg) SOCK_DGRAM proto])
        else if proto = IPPROTO_TCP then
          (env.socket, [SockCall.socket (domain cfg) SOCK_STREAM proto])
        else ((-1 : Int), ([] : List SockCall))).2, c.isBind = false := by
      split_ifs <;> simp [SockCall.isBind]
    revert hcr0
    generalize
      (if proto = IPPROTO_RAW then (env.socket, [SockCall.socket (domain cfg) SOCK_RAW proto])
        else if proto = IPPROTO_SCTP then
          (env.socket, [SockCall.socket (domain cfg) SOCK_SEQPACKET proto])
        else if proto = IPPROTO_UDP then
          (env.socket, [SockCall.socket (domain cfg) SOCK_DGRAM proto])
        else if proto = IPPROTO_TCP then
          (env.socket, [SockCall.socket (domain cfg) SOCK_STREAM proto])
        else ((-1 : Int), ([] : List SockCall))) = created
    intro hcr
    simp only [hl, ifaceLoop_no_match cfg env _ port name (-1) l haddr hno]
    by_cases hneg : created.1 < 0
    · simp only [hneg, if_true]
      refine ⟨?_, _, rfl⟩
      intro c hc
      simp only [List.mem_append, List.mem_singleton] at hc
      rcases hc with hc | hc
      · subst hc; rfl
      · exact hcr c hc
    · simp only [hneg, if_false]
      by_cases hopt : env.setsockopt = -1
      · simp only [hopt, if_true]
        refine ⟨?_, _, rfl⟩
        intro c hc
        simp only [List.mem_append, List.mem_singleton] at hc
        rcases hc with (hc | hc) | hc
        · subst hc; rfl
        · exact hcr c hc
        · subst hc; rfl
      · simp only [hopt, if_false]
        refine ⟨?_, _, rfl⟩
        intro c hc
        simp only [ne_eq, show ¬ ((-1 : Int) = 0) by decide, not_false_eq_true, if_true,
          List.mem_append, List.mem_singleton, List.mem_cons, List.not_mem_nil,
          or_false] at hc
        rcases hc with ((hc | hc) | hc | hc) | hc
        · subst hc; rfl
        · exact hcr c hc
        · subst hc; rfl
        · subst hc; rfl
        · subst hc; rfl

/-- C6: when `ctf_listen` gets past socket creation and bind (the setup part
returns the socket `sd` after the calls `calls`, none of which is `listen`),
the protocol is one of the four selectors; for TCP and SCTP the calls are
followed by exactly one `listen(sd, 16)`; for UDP and RAW no call follows and
`sd` is returned directly.  So `listen` is called, once and with backlog 16,
exactly when the protocol is TCP or SCTP. -/
theorem ctf_listen_listens_iff (cfg : Config) (env : ListenEnv) (port : Nat) (proto : Int)
    (iface : Option String) (calls : List SockCall) (sd : Int)
    (hsetup : listenSetup cfg env port proto iface = (calls, .returned sd)) :
    (proto = IPPROTO_TCP ∨ proto = IPPROTO_SCTP ∨ proto = IPPROTO_UDP ∨
      proto = IPPROTO_RAW) ∧
    (∀ c ∈ calls, c.isListen = false) ∧
    (proto = IPPROTO_TCP ∨ proto = IPPROTO_SCTP →
      (ctf_listen cfg env port proto iface).1 = calls ++ [.listen sd 16]) ∧
    (proto = IPPROTO_UDP ∨ proto = IPPROTO_RAW →
      ctf_listen cfg env port proto iface = (calls, .returned sd)) ∧
    ((ctf_listen cfg env port proto iface).1.filter SockCall.isListen = [.listen sd 16] ↔
      (proto = IPPROTO_TCP ∨ proto = IPPROTO_SCTP)) ∧
    ((ctf_listen cfg env port proto iface).1.filter SockCall.isListen = [] ↔
      (proto = IPPROTO_UDP ∨ proto = IPPROTO_RAW)) := by
  obtain ⟨hfour, _, _, hnl⟩ := listenSetup_returned cfg env port proto iface calls sd hsetup
  have hfilter : calls.filter SockCall.isListen = [] := by
    rw [List.filter_eq_nil_iff]
    intro c hc
    simp [hnl c hc]
  have hiff : (proto ≠ IPPROTO_UDP ∧ proto ≠ IPPROTO_RAW) ↔
      (proto = IPPROTO_TCP ∨ proto = IPPROTO_SCTP) := by
    rcases hfour with hp | hp | hp | hp <;> rw [hp] <;> decide
  have hiff2 : (proto = IPPROTO_UDP ∨ proto = IPPROTO_RAW) ↔
      ¬ (proto = IPPROTO_TCP ∨ proto = IPPROTO_SCTP) := by
    rcases hfour with hp | hp | hp | hp <;> rw [hp] <;> decide
  have hA : proto = IPPROTO_TCP ∨ proto = IPPROTO_SCTP →
      (ctf_listen cfg env port proto iface).1 = calls ++ [.listen sd 16] := by
    intro hp
    unfold ctf_listen
    rw [hsetup]
    simp only
    rw [if_pos (hiff.mpr hp)]
    split_ifs <;> rfl
  have hB : proto = IPPROTO_UDP ∨ proto = IPPROTO_RAW →
      ctf_listen cfg env port proto iface = (calls, .returned sd) := by
    intro hp
    have hcond : ¬ (proto ≠ IPPROTO_UDP ∧ proto ≠ IPPROTO_RAW) :=
      fun h => hiff2.mp hp (hiff.mp h)
    unfold ctf_listen
    rw [hsetup]
    simp only
    rw [if_neg hcond]
  have hfA : proto = IPPROTO_TCP ∨ proto = IPPROTO_SCTP →
      (ctf_listen cfg env port proto iface).1.filter SockCall.isListen
        = [.listen sd 16] := by
    intro hp
    rw [hA hp, List.filter_append, hfilter]
    rfl
  have hfB : proto = IPPROTO_UDP ∨ proto = IPPROTO_RAW →
      (ctf_listen cfg env port proto iface).1.filter SockCall.isListen = [] := by
    intro hp
    rw [hB hp]
    exact hfilter
  refine ⟨hfour, hnl, hA, hB, ⟨?_, hfA⟩, ⟨?_, hfB⟩⟩
  · intro h
    by_contra hn
    rw [hfB (hiff2.mpr hn)] at h
    simp at h
  · intro h
    rw [hiff2]
    intro hp
    rw [hfA hp] at h
    simp at h

/-- When every entry of the interface list carries an address and none has
both the configured family and exactly the given name (the empty list
included), `ctf_listen` makes no call of `bind` and ends in `errx(-1, ...)`,
exit status 255: no descriptor is returned. -/
theorem ctf_listen_unknown_iface_errx (cfg : Config) (env : ListenEnv) (port : Nat)
    (proto : Int) (name : String) (l : List Ifaddr)
    (hl : env.getifaddrs = some l)
    (haddr : ∀ i ∈ l, i.ifa_addr.isSome = true)
    (hno : ∀ i ∈ l, i.isMatch cfg name = false) :
    (ctf_listen cfg env port proto (some name)).1.countP SockCall.isBind = 0 ∧
    (∃ msg, (ctf_listen cfg env port proto (some name)).2 = .errx (-1) msg) ∧
    (ctf_listen cfg env port proto (some name)).2.isReturned = false ∧
    exitStatus (-1) = 255 := by
  obtain ⟨hb, msg, hmsg⟩ :=
    listenSetup_unknown_iface cfg env port proto name l hl haddr hno
  have hlisten : ctf_listen cfg env port proto (some name)
      = ((listenSetup cfg env port proto (some name)).1, .errx (-1) msg) := by
    unfold ctf_listen
    generalize listenSetup cfg env port proto (some name) = s at hmsg
    obtain ⟨c, o⟩ := s
    simp only at hmsg
    subst hmsg
    rfl
  rw [hlisten]
  refine ⟨?_, ⟨msg, rfl⟩, rfl, by decide⟩
  rw [List.countP_eq_zero]
  intro c hc
  simp [hb c hc]

/-- C7 (evaluation): the interface `eth0` is asked for and the system list is
`lo` (an IPv4 address) followed by `tun0` with a null `ifa_addr`; no entry has
the configured family together with the name `eth0`.  The loop reads
`i->ifa_addr->sa_family` of `tun0` through the null pointer: after `signal`,
`socket`, `setsockopt` and `getifaddrs` the process is killed by `SIGSEGV`.
It does not reach `errx(-1, "Unable to bind socket")`. -/
theorem ctf_listen_null_addr_crashes :
    (∀ i ∈ [Ifaddr.mk "lo" (some ⟨2, 0⟩), Ifaddr.mk "tun0" none],
      i.isMatch defaultConfig "eth0" = false) ∧
    ctf_listen defaultConfig
        ⟨false, 3, 0, some [⟨"lo", some ⟨2, 0⟩⟩, ⟨"tun0", none⟩], 0, 0⟩
        9999 IPPROTO_TCP (some "eth0")
      = ([.signal, .socket AF_INET SOCK_STREAM IPPROTO_TCP, .setsockopt 3, .getifaddrs],
          .killed SIGSEGV) := by
  decide

theorem ctf_listen_listens_iff_witness :
    listenSetup defaultConfig ⟨false, 3, 0, none, 0, 0⟩ 9999 IPPROTO_TCP none
      = ([.signal, .socket AF_INET SOCK_STREAM IPPROTO_TCP, .setsockopt 3,
          .bind 3 none AF_INET 3879], .returned 3) ∧
    (ctf_listen defaultConfig ⟨false, 3, 0, none, 0, 0⟩ 9999 IPPROTO_TCP none).1.filter
      SockCall.isListen = [.listen 3 16] :=
  ⟨by decide,
    (ctf_listen_listens_iff defaultConfig ⟨false, 3, 0, none, 0, 0⟩ 9999 IPPROTO_TCP none
      [.signal, .socket AF_INET SOCK_STREAM IPPROTO_TCP, .setsockopt 3,
        .bind 3 none AF_INET 3879] 3 (by decide)).2.2.2.2.1.mpr (Or.inl rfl)⟩

/-! ### `ctf_privdrop` -/

theorem privdrop_trace_eq (cfg : Config) (env : PrivEnv) (user : String) (pw : Passwd)
    (h : env.getpwnam = some pw) :
    (ctf_privdrop cfg env user).1 = (runSteps (privSteps cfg env user pw)).1 ∧
    (ctf_privdrop cfg env user).2.isReturned = (runSteps (privSteps cfg env user pw)).2 := by
  unfold ctf_privdrop
  simp only [h, privSteps, ← not_lt]
  split_ifs <;> simp [runSteps, Outcome.isReturned, *]

theorem privdrop_returned_iff (cfg : Config) (env : PrivEnv) (user : String) :
    ((ctf_privdrop cfg env user).2.isReturned = true ↔
      (env.getpwnam.isSome = true ∧ 0 ≤ env.setgroups ∧ 0 ≤ env.setgid ∧ 0 ≤ env.setuid ∧
        (if cfg.chroot then 0 ≤ env.chroot ∧ 0 ≤ env.chdir else 0 ≤ env.chdir))) := by
  unfold ctf_privdrop
  cases hg : env.getpwnam with
  | none => simp [Outcome.isReturned]
  | some pw =>
    simp only
    split_ifs <;> simp [Outcome.isReturned] <;> omega

theorem privdrop_errx (cfg : Config) (env : PrivEnv) (user : String)
    (h : (ctf_privdrop cfg env user).2.isReturned = false) :
    ∃ msg, (ctf_privdrop cfg env user).2 = .errx (-1) msg := by
  revert h
  unfold ctf_privdrop
  cases hg : env.getpwnam with
  | none => simp [Outcome.isReturned]
  | some pw =>
    simp only
    split_ifs <;> simp [Outcome.isReturned]

theorem privdrop_setuid (cfg : Config) (env : PrivEnv) (user : String) :
    ∀ c ∈ (ctf_privdrop cfg env user).1, c.isSetuid = true →
      env.getpwnam.isSome = true ∧ 0 ≤ env.setgroups ∧ 0 ≤ env.setgid := by
  unfold ctf_privdrop
  cases hg : env.getpwnam with
  | none => simp [PrivCall.isSetuid]
  | some pw =>
    simp only
    split_ifs <;> simp [PrivCall.isSetuid] <;> omega
/-- C5: `ctf_privdrop` attempts `getpwnam`, `setgroups`, `setgid`, `setuid` and
the directory change in exactly that order and stops at the first step that
fails: its calls and its success are those of the fail-fast run of the five
steps.  It returns normally if and only if all five steps succeed, every
other end is `errx(-1, ...)`, and `setuid` is among the calls only when the
account was found and `setgroups` and `setgid` succeeded. -/
theorem ctf_privdrop_fail_fast (cfg : Config) (env : PrivEnv) (user : String) :
    (env.getpwnam = none →
      ctf_privdrop cfg env user = ([.getpwnam user], .errx (-1) "Unable to find user")) ∧
    (∀ pw, env.getpwnam = some pw →
      (ctf_privdrop cfg env user).1 = (runSteps (privSteps cfg env user pw)).1 ∧
      (ctf_privdrop cfg env user).2.isReturned = (runSteps (privSteps cfg env user pw)).2) ∧
    ((ctf_privdrop cfg env user).2.isReturned = true ↔
      (env.getpwnam.isSome = true ∧ 0 ≤ env.setgroups ∧ 0 ≤ env.setgid ∧ 0 ≤ env.setuid ∧
        (if cfg.chroot then 0 ≤ env.chroot ∧ 0 ≤ env.chdir else 0 ≤ env.chdir))) ∧
    ((ctf_privdrop cfg env user).2.isReturned = false →
      ∃ msg, (ctf_privdrop cfg env user).2 = .errx (-1) msg) ∧
    (∀ c ∈ (ctf_privdrop cfg env user).1, c.isSetuid = true →
      env.getpwnam.isSome = true ∧ 0 ≤ env.setgroups ∧ 0 ≤ env.setgid) :=
  ⟨fun h => by simp [ctf_privdrop, h],
    fun pw h => privdrop_trace_eq cfg env user pw h,
    privdrop_returned_iff cfg env user,
    privdrop_errx cfg env user,
    privdrop_setuid cfg env user⟩

/-! ### `ctf_readsn` and `ctf_writen` -/

theorem toInt32_of_range (x : Int) (h1 : -2147483648 ≤ x) (h2 : x ≤ 2147483647) :
    toInt32 x = x := by
  unfold toInt32
  omega

theorem readsnLoop_newline (len : Nat) (post : List Nat) :
    ∀ (pre : List Nat) (count : Nat), 10 ∉ pre → count + pre.length < len →
      readsnLoop len count (pre ++ 10 :: post)
        = (count + pre.length, pre.enumFrom count ++ [(count + pre.length, 0)]) := by
  intro pre
  induction pre with
  | nil =>
    intro count _ h
    have hc : count < len := by simpa using h
    simp [readsnLoop, hc]
  | cons c cs ih =>
    intro count hmem h
    have hc10 : c ≠ 10 := fun e => hmem (by simp [e])
    have hcs : 10 ∉ cs := fun e => hmem (List.mem_cons_of_mem _ e)
    have hlen : count + 1 + cs.length < len := by
      simp only [List.length_cons] at h
      omega
    have hc : count < len := by omega
    have := ih (count + 1) hcs hlen
    simp only [List.cons_append, readsnLoop, hc, if_true, hc10, if_false, List.append_eq,
      this, List.enumFrom_cons, List.length_cons]
    rw [show count + 1 + cs.length = count + (cs.length + 1) by omega]

theorem readsnLoop_stores_lt (len : Nat) :
    ∀ (input : List Nat) (count : Nat), ∀ w ∈ (readsnLoop len count input).2, w.1 < len := by
  intro input
  induction input with
  | nil => intro count w hw; simp [readsnLoop] at hw
  | cons c cs ih =>
    intro count w hw
    unfold readsnLoop at hw
    split_ifs at hw with h1 h2
    · simp only [List.mem_singleton] at hw
      subst hw
      exact h1
    · simp only [List.mem_cons] at hw
      rcases hw with hw | hw
      · subst hw
        exact h1
      · exact ih _ _ hw
    · simp at hw

theorem applyStores_enumFrom (k : Nat) :
    ∀ (pre : List Nat) (count : Nat) (buf : Buffer), count + pre.length = k →
      ∀ i, applyStores buf (pre.enumFrom count ++ [(k, 0)]) i
        = if i = k then 0
          else if count ≤ i ∧ i < k then pre.getD (i - count) 0 else buf i := by
  intro pre
  induction pre with
  | nil =>
    intro count buf h i
    simp only [List.length_nil, Nat.add_zero] at h
    subst h
    simp only [List.enumFrom_nil, List.nil_append, applyStores, List.foldl_cons,
      List.foldl_nil]
    split_ifs with h1 h2
    · rfl
    · omega
    · rfl
  | cons c cs ih =>
    intro count buf h i
    simp only [List.length_cons] at h
    have := ih (count + 1) (fun j => if j = count then c else buf j) (by omega) i
    simp only [applyStores, List.enumFrom_cons, List.cons_append, List.foldl_cons] at this ⊢
    rw [this]
    clear this
    by_cases h1 : i = k
    · simp [h1]
    · simp only [h1, if_false]
      by_cases h2 : i = count
      · subst h2
        have hlt : i < k := by omega
        simp [hlt]
      · by_cases h3 : count + 1 ≤ i ∧ i < k
        · have h4 : count ≤ i ∧ i < k := ⟨by omega, h3.2⟩
          simp only [h3, h4, and_self, if_true]
          have : i - count = (i - (count + 1)) + 1 := by omega
          rw [this, List.getD_cons_succ]
        · have h4 : ¬ (count ≤ i ∧ i < k) := by omega
          simp only [h3, h4, if_false, h2]

theorem ctf_readsn_newline (fd : Int) (buf : Buffer) (len : Nat) (pre post : List Nat)
    (hfd : 0 ≤ fd) (hpre : 10 ∉ pre) (hk : pre.length < len) :
    ctf_readsn fd (some buf) len (pre ++ 10 :: post)
      = ⟨toInt32 pre.length, pre.enumFrom 0 ++ [(pre.length, 0)],
          applyStores buf (pre.enumFrom 0 ++ [(pre.length, 0)])⟩ := by
  have hlen : len ≠ 0 := by omega
  have h := readsnLoop_newline len post pre 0 hpre (by omega)
  simp only [Nat.zero_add] at h
  simp only [ctf_readsn, hfd, hlen, ne_eq, not_false_eq_true, and_self, if_true, h]

/-- C8 (counterexample): with `len = 2^31 + 1` and an input of `2^31` bytes
`a` followed by a newline, the newline is among the first `len` bytes and
`2^31` bytes precede it, but `ctf_readsn` returns `-2^31`: the `unsigned int`
counter does not fit the `int` that is returned. -/
theorem ctf_readsn_count_wraps :
    (10 : Nat) ∉ List.replicate 2147483648 97 ∧
    (List.replicate 2147483648 97).length = 2147483648 ∧
    (ctf_readsn 0 (some (fun _ => 0)) 2147483649
      (List.replicate 2147483648 97 ++ [10])).ret = -2147483648 := by
  have hmem : (10 : Nat) ∉ List.replicate 2147483648 97 := by
    intro h
    have := List.eq_of_mem_replicate h
    omega
  have hlen : (List.replicate 2147483648 97).length = 2147483648 := List.length_replicate _ _
  refine ⟨hmem, hlen, ?_⟩
  rw [ctf_readsn_newline 0 _ 2147483649 _ [] (le_refl _) hmem (by rw [hlen]; omega)]
  show toInt32 ((List.replicate 2147483648 97).length : Nat) = -2147483648
  rw [hlen]
  decide

/-- C8 (amended): for `fd >= 0`, a non-null buffer and `0 < len <= UINT_MAX`,
when the input has its first newline after `k < len` bytes, `ctf_readsn`
stores those `k` bytes at the indices `0 .. k-1`, then the zero terminator at
index `k`, and nothing else; it returns `k` converted to `int`, which is `k`
itself whenever `k <= INT_MAX`.  Indices above `k` keep their content, and on
any input whatever every store goes to an index below `len`. -/
theorem ctf_readsn_stops_at_newline (fd : Int) (buf : Buffer) (len : Nat)
    (pre post : List Nat)
    (hfd : 0 ≤ fd) (hlen : 0 < len) (hmax : len ≤ UINT_MAX)
    (hpre : 10 ∉ pre) (hk : pre.length < len) :
    (ctf_readsn fd (some buf) len (pre ++ 10 :: post)).stores
      = pre.enumFrom 0 ++ [(pre.length, 0)] ∧
    (ctf_readsn fd (some buf) len (pre ++ 10 :: post)).ret = toInt32 pre.length ∧
    (pre.length ≤ INT_MAX →
      (ctf_readsn fd (some buf) len (pre ++ 10 :: post)).ret = pre.length) ∧
    (ctf_readsn fd (some buf) len (pre ++ 10 :: post)).msg pre.length = 0 ∧
    (∀ i (h : i < pre.length),
      (ctf_readsn fd (some buf) len (pre ++ 10 :: post)).msg i = pre[i]) ∧
    (∀ i, pre.length < i →
      (ctf_readsn fd (some buf) len (pre ++ 10 :: post)).msg i = buf i) ∧
    (∀ input, ∀ w ∈ (ctf_readsn fd (some buf) len input).stores, w.1 < len) := by
  have hne : len ≠ 0 := by omega
  have hU : len ≤ 4294967295 := hmax
  rw [ctf_readsn_newline fd buf len pre post hfd hpre hk]
  have happ := applyStores_enumFrom pre.length pre 0 buf (by omega)
  refine ⟨rfl, rfl, ?_, ?_, ?_, ?_, ?_⟩
  · intro h
    have h2 : pre.length ≤ 2147483647 := h
    exact toInt32_of_range _ (by omega) (by omega)
  · simp only [happ, if_true]
  · intro i h
    have hne : i ≠ pre.length := by omega
    simp only [happ, hne, if_false, Nat.zero_le, h, and_self, if_true, Nat.sub_zero]
    exact List.getD_eq_getElem _ _ h
  · intro i h
    have hne : i ≠ pre.length := by omega
    have hnot : ¬ (0 ≤ i ∧ i < pre.length) := by omega
    simp only [happ, hne, hnot, if_false]
  · intro input w hw
    simp only [ctf_readsn, hfd, hne, ne_eq, not_false_eq_true, and_self, if_true] at hw
    exact readsnLoop_stores_lt len input 0 w hw

theorem ctf_readsn_stops_at_newline_witness :
    (0 : Int) ≤ 4 ∧ 0 < 8 ∧ 8 ≤ UINT_MAX ∧ 10 ∉ [104, 105] ∧ [104, 105].length < 8 ∧
    (ctf_readsn 4 (some (fun _ => 7)) 8 ([104, 105] ++ 10 :: [33])).ret
      = ([104, 105].length : Nat) :=
  ⟨by decide, by decide, by decide, by decide, by decide,
    (ctf_readsn_stops_at_newline 4 (fun _ => 7) 8 [104, 105] [33] (by decide) (by decide)
      (by decide) (by decide) (by decide)).2.2.1 (by decide)⟩

theorem writenLoop_spec (len : Nat) (w : Nat → Nat → Nat → Option Nat)
    (hmax : len ≤ INT_MAX)
    (hw : ∀ k off req n, w k off req = some n → n ≤ req) :
    ∀ (fuel k count : Nat), count ≤ len → len - count ≤ fuel →
      ∃ ret tr, writenLoop len w fuel k count = some (ret, tr) ∧
        Chained len w k count tr ∧
        (count < len → tr ≠ []) ∧
        ((∀ c ∈ tr, 0 < c.prev) →
          ret = len ∧ (count : Int) + (tr.map (fun c => c.prev)).sum = len) ∧
        (∀ pre c post, tr = pre ++ c :: post → c.prev ≤ 0 → post = [] ∧ ret = c.prev) := by
  have hM : len ≤ 2147483647 := hmax
  intro fuel
  induction fuel with
  | zero =>
    intro k count hc hf
    have hge : ¬ count < len := by omega
    have heq : count = len := by omega
    refine ⟨toInt32 count, [], by simp [writenLoop, hge], trivial, fun h => absurd h hge, ?_, ?_⟩
    · intro _
      subst heq
      exact ⟨toInt32_of_range _ (by omega) (by omega), by simp⟩
    · intro pre c post h
      simp at h
  | succ fuel ih =>
    intro k count hc hf
    by_cases hlt : count < len
    · cases hres : w k count (len - count) with
      | none =>
        have hprev : toInt32 (ssize none) = -1 := by decide
        refine ⟨-1, [⟨count, len - count, -1⟩], ?_, ?_, by simp, ?_, ?_⟩
        · simp [writenLoop, hlt, hres, hprev]
        · exact ⟨hlt, rfl, rfl, by rw [hres]; rfl, trivial⟩
        · intro h
          have := h ⟨count, len - count, -1⟩ (List.mem_singleton_self _)
          simp at this
        · intro pre c post h _
          cases pre with
          | nil =>
            simp only [List.nil_append, List.cons.injEq] at h
            exact ⟨h.2.symm, by rw [← h.1]⟩
          | cons a pre =>
            simp at h
      | some n =>
        have hn : n ≤ len - count := hw _ _ _ _ hres
        have hprev : toInt32 (ssize (some n)) = n := by
          simp only [ssize]
          exact toInt32_of_range _ (by omega) (by omega)
        by_cases hz : n = 0
        · subst hz
          refine ⟨0, [⟨count, len - count, 0⟩], ?_, ?_, by simp, ?_, ?_⟩
          · simp [writenLoop, hlt, hres, hprev]
          · exact ⟨hlt, rfl, rfl, by rw [hres]; rfl, trivial⟩
          · intro h
            have := h ⟨count, len - count, 0⟩ (List.mem_singleton_self _)
            simp at this
          · intro pre c post h _
            cases pre with
            | nil =>
              simp only [List.nil_append, List.cons.injEq] at h
              exact ⟨h.2.symm, by rw [← h.1]⟩
            | cons a pre =>
              simp at h
        · have hpos : ¬ ((n : Int) ≤ 0) := by omega
          have hnext : (count + n) % 4294967296 = count + n := by omega
          obtain ⟨ret, tr, hrun, hch, _, hall, hstop⟩ :=
            ih (k + 1) (count + n) (by omega) (by omega)
          refine ⟨ret, ⟨count, len - count, n⟩ :: tr, ?_, ?_, by simp, ?_, ?_⟩
          · simp [writenLoop, hlt, hres, hprev, hpos, hnext, hrun]
          · refine ⟨hlt, rfl, rfl, by rw [hres]; rfl, ?_⟩
            simpa using hch
          · intro h
            have h2 := hall (fun c hc => h c (List.mem_cons_of_mem _ hc))
            refine ⟨h2.1, ?_⟩
            have h3 := h2.2
            simp only [List.map_cons, List.sum_cons]
            push_cast at h3
            omega
          · intro pre c post h hle
            cases pre with
            | nil =>
              simp only [List.nil_append, List.cons.injEq] at h
              rw [← h.1] at hle
              exact absurd hle hpos
            | cons a pre =>
              simp only [List.cons_append, List.cons.injEq] at h
              exact hstop pre c post h.2 hle
    · have heq : count = len := by omega
      refine ⟨toInt32 count, [], by simp [writenLoop, hlt], trivial, fun h => absurd h hlt,
        ?_, ?_⟩
      · intro _
        subst heq
        exact ⟨toInt32_of_range _ (by omega) (by omega), by simp⟩
      · intro pre c post h
        simp at h

/-- C9: for `fd >= 0`, a non-null message, `0 < len <= INT_MAX` and writes that
never return more than they were asked for, `ctf_writen` returns a result
after at least one call of `write`.  Its calls are exactly those the write
oracle answers: the first has number 0 and offset 0, each is issued while
bytes remain, at the current offset and for the remaining length, records
the value `write` returned, and is followed by the call with the next number
at the offset advanced by that value.  If every call returned a positive
count the result is `len` and the counts add up to `len`, so the calls cover
the bytes `0 .. len-1` in order without gap or overlap; a call that returned
`r <= 0` is the last call and the result is `r`. -/
theorem ctf_writen_chunks (fd : Int) (len : Nat) (w : Nat → Nat → Nat → Option Nat)
    (hfd : 0 ≤ fd) (hlen : 0 < len) (hmax : len ≤ INT_MAX)
    (hw : ∀ k off req n, w k off req = some n → n ≤ req) :
    ∃ ret tr, ctf_writen fd false len w = some (ret, tr) ∧
      tr ≠ [] ∧
      Chained len w 0 0 tr ∧
      ((∀ c ∈ tr, 0 < c.prev) →
        ret = len ∧ (tr.map (fun c => c.prev)).sum = len) ∧
      (∀ pre c post, tr = pre ++ c :: post → c.prev ≤ 0 →
        post = [] ∧ ret = c.prev ∧ ret ≤ 0) := by
  obtain ⟨ret, tr, hrun, hch, hne, hall, hstop⟩ :=
    writenLoop_spec len w hmax hw len 0 0 (Nat.zero_le _) (by omega)
  have hlen0 : len ≠ 0 := by omega
  refine ⟨ret, tr, ?_, hne hlen, hch, ?_, ?_⟩
  · simp only [ctf_writen, hfd, hlen0, ne_eq, not_false_eq_true, and_self, if_true, hrun]
  · intro h
    have h2 := hall h
    exact ⟨h2.1, by simpa using h2.2⟩
  · intro pre c post h hle
    obtain ⟨h1, h2⟩ := hstop pre c post h hle
    exact ⟨h1, h2, by rw [h2]; exact hle⟩

theorem ctf_writen_chunks_witness :
    (0 : Int) ≤ 1 ∧ 0 < 7 ∧ 7 ≤ INT_MAX ∧
    (∀ k off req n, sampleWrite k off req = some n → n ≤ req) ∧
    ∃ ret tr, ctf_writen 1 false 7 sampleWrite = some (ret, tr) ∧
      tr ≠ [] ∧
      Chained 7 sampleWrite 0 0 tr ∧
      ((∀ c ∈ tr, 0 < c.prev) →
        ret = (7 : Nat) ∧ (tr.map (fun c => c.prev)).sum = (7 : Nat)) ∧
      (∀ pre c post, tr = pre ++ c :: post → c.prev ≤ 0 →
        post = [] ∧ ret = c.prev ∧ ret ≤ 0) :=
  ⟨by decide, by decide, by decide,
    fun _ _ req n h => by
      simp only [sampleWrite, Option.some.injEq] at h
      omega,
    ctf_writen_chunks 1 7 sampleWrite (by decide) (by decide)
      (by decide) (fun _ _ req n h => by
        simp only [sampleWrite, Option.some.injEq] at h
        omega)⟩

end Ctf
